import Mathlib

/-!
Verification of the object-memory core of the rubinius runtime
(src/vm/object_memory.cpp, src/vm/gc/immix.cpp) against its
natural-language specification.

The embedding is shallow: each C++ function is translated into an
executable Lean definition over explicit state.  Concurrent interference
on the object header word is modelled by an explicit schedule: a list of
header values the environment stores into the header cell before each of
the function's successive CAS attempts (an empty schedule means the run
is interference-free, so each CAS sees exactly the value the function
last read).  Machine words are modelled as `Nat` with explicit shifts
and masks; C `long` counters are modelled as `Int`.
-/

namespace rubinius

/-- The four lightweight header meanings plus the inflated meaning
(enum from the header-word protocol; the names follow the source). -/
inductive AuxMeaning where
| eAuxWordEmpty
| eAuxWordObjID
| eAuxWordLock
| eAuxWordHandle
| eAuxWordInflated
deriving DecidableEq, Repr

/-- Status codes returned by the locking paths (enum LockStatus). -/
inductive LockStatus where
| eUnlocked
| eLocked
| eLockTimeout
| eLockInterrupted
| eLockError
deriving DecidableEq, Repr

/-- Modelled from the spec: the packed object header word (oop.hpp is not
under src/).  §3 of the spec: a meaning field, an auxiliary word, and an
advisory contended bit for thin locks.  CAS operates on the whole value. -/
structure HeaderWord where
  meaning : AuxMeaning
  aux_word : Nat
  LockContended : Bool
deriving DecidableEq, Repr

/-- Modelled from the spec: thin-lock split of the auxiliary word,
aux = (owner thread id ‖ recursion count): the owner id sits above the
recursion-count byte (constants from oop.hpp, not under src/). -/
def cAuxLockTIDShift : Nat := 8

/-- Modelled from the spec: mask extracting the thin-lock recursion count
from the auxiliary word (oop.hpp, not under src/). -/
def cAuxLockRecCountMask : Nat := 255

/-- Owner thread id encoded in a thin-lock auxiliary word. -/
def HeaderWord.lockOwner (h : HeaderWord) : Nat :=
  h.aux_word >>> cAuxLockTIDShift

/-- Recursion count encoded in a thin-lock auxiliary word. -/
def HeaderWord.lockCount (h : HeaderWord) : Nat :=
  h.aux_word &&& cAuxLockRecCountMask

/-- Modelled from the spec: an inflated side record (class InflatedHeader,
oop.hpp / inflated_headers.cpp, not under src/): original object id (or 0),
foreign-handle pointer (or none), a recursive mutex with owner id and
recursion count, and a per-collection mark. -/
structure InflatedHeader where
  object_id : Nat
  handle : Option Nat
  owner_id : Nat
  rec_lock_count : Nat
  mark : Nat
deriving DecidableEq, Repr

/-- A freshly allocated, zeroed side record. -/
def InflatedHeader.fresh : InflatedHeader :=
  { object_id := 0, handle := none, owner_id := 0, rec_lock_count := 0, mark := 0 }

/-- InflatedHeader::set_object_id. -/
def InflatedHeader.set_object_id (ih : InflatedHeader) (id : Nat) : InflatedHeader :=
  { ih with object_id := id }

/-- InflatedHeader::set_handle. -/
def InflatedHeader.set_handle (ih : InflatedHeader) (h : Nat) : InflatedHeader :=
  { ih with handle := some h }

/-- InflatedHeader::initialize_mutex(thread_id, count): the record's mutex
starts out owned by `tid` with recursion count `count`. -/
def InflatedHeader.initialize_mutex (ih : InflatedHeader) (tid count : Nat) : InflatedHeader :=
  { ih with owner_id := tid, rec_lock_count := count }

/-- Modelled from the spec: InflatedHeader::update (oop.cpp, not under
src/) absorbs the prior lightweight meaning of the header word into the
side record (§3: "Absorbs all prior meanings"). -/
def InflatedHeader.update (ih : InflatedHeader) (hw : HeaderWord) : InflatedHeader :=
  match hw.meaning with
  | .eAuxWordEmpty =>
      { ih with owner_id := 0, rec_lock_count := 0, object_id := 0, handle := none }
  | .eAuxWordObjID =>
      { ih with owner_id := 0, rec_lock_count := 0, object_id := hw.aux_word, handle := none }
  | .eAuxWordLock =>
      { ih with owner_id := hw.lockOwner, rec_lock_count := hw.lockCount,
                object_id := 0, handle := none }
  | .eAuxWordHandle =>
      { ih with owner_id := 0, rec_lock_count := 0, object_id := 0,
                handle := some hw.aux_word }
  | .eAuxWordInflated => ih

/-- InflatedHeader::mark(om, mark_): stamp the record with the current
mark epoch. -/
def InflatedHeader.mark_record (ih : InflatedHeader) (m : Nat) : InflatedHeader :=
  { ih with mark := m }

/-- InflatedHeader::clear: reset an abandoned record. -/
def InflatedHeader.clear (_ : InflatedHeader) : InflatedHeader :=
  InflatedHeader.fresh

/-- The slab of inflated side records (class InflatedHeaders), indexed by
stable indices. -/
structure InflatedTable where
  records : List InflatedHeader
deriving DecidableEq, Repr

/-- InflatedHeaders::allocate: append a fresh record, returning its index. -/
def InflatedTable.allocate (t : InflatedTable) : InflatedTable × Nat :=
  ({ records := t.records ++ [InflatedHeader.fresh] }, t.records.length)

/-- Lookup a record by index. -/
def InflatedTable.get (t : InflatedTable) (i : Nat) : InflatedHeader :=
  t.records.getD i InflatedHeader.fresh

/-- Store an updated record at an index. -/
def InflatedTable.set (t : InflatedTable) (i : Nat) (ih : InflatedHeader) : InflatedTable :=
  { records := t.records.set i ih }

/-- Modelled from the spec: ObjectHeader::set_inflated_header (oop.hpp,
not under src/) builds the word `orig` with meaning Inflated and the
record index in the auxiliary word; it is installed by CAS on the full
header word (§4.1: "the installer still uses CAS"). -/
def inflatedWord (orig : HeaderWord) (idx : Nat) : HeaderWord :=
  { orig with meaning := .eAuxWordInflated, aux_word := idx }

/-- Result of one modelled inflation operation: the boolean return value
(`true` for the void operations inflate_for_id / inflate_for_handle),
the final header-cell value, the final record table, the list of header
values the operation itself stored into the header cell, and whether the
operation successfully installed a new inflated record. -/
structure InflateResult where
  ok : Bool
  header : HeaderWord
  table : InflatedTable
  writes : List HeaderWord
  installed : Bool
deriving DecidableEq, Repr

/-- Retry loop of ObjectMemory::inflate_lock_count_overflow.  `ih` holds
the current contents of the record at `idx`; `orig` is the header value
last read (the expected value of the next CAS); `sched` is the
interference schedule. -/
def inflateLockCountOverflowLoop (tid count idx : Nat) (ih : InflatedHeader)
    (orig : HeaderWord) (sched : List HeaderWord) (table : InflatedTable) : InflateResult :=
  match sched with
  | [] =>
    let nw := inflatedWord orig idx
    { ok := true, header := nw, table := table.set idx ih, writes := [nw], installed := true }
  | w :: rest =>
    if w = orig then
      let nw := inflatedWord orig idx
      { ok := true, header := nw, table := table.set idx ih, writes := [nw], installed := true }
    else if w.meaning = .eAuxWordInflated then
      { ok := false, header := w, table := table.set idx ih, writes := [], installed := false }
    else
      inflateLockCountOverflowLoop tid count idx
        ((ih.update w).initialize_mutex tid count) w rest table

/-- ObjectMemory::inflate_lock_count_overflow (object_memory.cpp:141).
Runs under the inflation spinlock.  `tid` is the calling thread id,
`count` the recursion count passed in by the caller, `m` the current
mark epoch. -/
def inflate_lock_count_overflow (tid count m : Nat) (h0 : HeaderWord)
    (table : InflatedTable) (sched : List HeaderWord) : InflateResult :=
  if h0.meaning = .eAuxWordInflated then
    { ok := false, header := h0, table := table, writes := [], installed := false }
  else
    let p := table.allocate
    let ih := ((InflatedHeader.fresh.update h0).initialize_mutex tid count).mark_record m
    inflateLockCountOverflowLoop tid count p.2 ih h0 sched p.1

/-- Retry loop of ObjectMemory::inflate_and_lock: on CAS failure the
meaning must not have changed (otherwise return false); the record is
not touched again. -/
def inflateAndLockLoop (idx : Nat) (ih : InflatedHeader) (orig : HeaderWord)
    (sched : List HeaderWord) (table : InflatedTable) : InflateResult :=
  match sched with
  | [] =>
    let nw := inflatedWord orig idx
    { ok := true, header := nw, table := table.set idx ih, writes := [nw], installed := true }
  | w :: rest =>
    if w = orig then
      let nw := inflatedWord orig idx
      { ok := true, header := nw, table := table.set idx ih, writes := [nw], installed := true }
    else if orig.meaning ≠ w.meaning then
      { ok := false, header := w, table := table.set idx ih, writes := [], installed := false }
    else if w.meaning = .eAuxWordInflated then
      { ok := false, header := w, table := table.set idx ih, writes := [], installed := false }
    else
      inflateAndLockLoop idx ih w rest table

/-- ObjectMemory::inflate_and_lock (object_memory.cpp:304).  Runs under
the inflation spinlock; inflates the header and leaves the new mutex
locked by the caller. -/
def inflate_and_lock (tid m : Nat) (h0 : HeaderWord) (table : InflatedTable)
    (sched : List HeaderWord) : InflateResult :=
  match h0.meaning with
  | .eAuxWordEmpty =>
    { ok := false, header := h0, table := table, writes := [], installed := false }
  | .eAuxWordInflated =>
    { ok := false, header := h0, table := table, writes := [], installed := false }
  | .eAuxWordObjID =>
    let p := table.allocate
    let ih := ((InflatedHeader.fresh.set_object_id h0.aux_word).initialize_mutex tid 0).mark_record m
    inflateAndLockLoop p.2 ih h0 sched p.1
  | .eAuxWordLock =>
    if h0.lockOwner ≠ tid then
      { ok := false, header := h0, table := table, writes := [], installed := false }
    else
      let p := table.allocate
      let ih := ((InflatedHeader.fresh).initialize_mutex tid h0.lockCount).mark_record m
      inflateAndLockLoop p.2 ih h0 sched p.1
  | .eAuxWordHandle =>
    let p := table.allocate
    let ih := ((InflatedHeader.fresh.set_handle h0.aux_word).initialize_mutex tid 0).mark_record m
    inflateAndLockLoop p.2 ih h0 sched p.1

/-- The record inflate_for_contention builds for one observed header
value, or `none` when the function must return false (already inflated,
or thin-locked by another thread). -/
def ifcCandidate (tid : Nat) (h : HeaderWord) : Option InflatedHeader :=
  match h.meaning with
  | .eAuxWordEmpty => some InflatedHeader.fresh
  | .eAuxWordObjID => some (InflatedHeader.fresh.set_object_id h.aux_word)
  | .eAuxWordHandle => some (InflatedHeader.fresh.set_handle h.aux_word)
  | .eAuxWordLock => if h.lockOwner = tid then some InflatedHeader.fresh else none
  | .eAuxWordInflated => none

/-- The for(;;) loop of ObjectMemory::inflate_for_contention: allocate a
candidate record for the observed header; on CAS success clear the
contended bit and return true; on CAS failure clear the record and try
everything again on the new header value. -/
def inflateForContentionGo (tid m : Nat) :
    List HeaderWord → HeaderWord → InflatedTable → InflateResult
  | [], h, table =>
    match ifcCandidate tid h with
    | none => { ok := false, header := h, table := table, writes := [], installed := false }
    | some ih0 =>
      let ih := ih0.mark_record m
      let p := table.allocate
      let nw := inflatedWord h p.2
      let cl := { nw with LockContended := false }
      { ok := true, header := cl, table := p.1.set p.2 ih, writes := [nw, cl], installed := true }
  | w :: rest, h, table =>
    match ifcCandidate tid h with
    | none => { ok := false, header := h, table := table, writes := [], installed := false }
    | some ih0 =>
      let ih := ih0.mark_record m
      let p := table.allocate
      if w = h then
        let nw := inflatedWord h p.2
        let cl := { nw with LockContended := false }
        { ok := true, header := cl, table := p.1.set p.2 ih, writes := [nw, cl], installed := true }
      else
        inflateForContentionGo tid m rest w (p.1.set p.2 (ih.clear))

/-- ObjectMemory::inflate_for_contention (object_memory.cpp:373).  Runs
under the inflation spinlock; leaves the object inflated but unlocked. -/
def inflate_for_contention (tid m : Nat) (h0 : HeaderWord) (table : InflatedTable)
    (sched : List HeaderWord) : InflateResult :=
  inflateForContentionGo tid m sched h0 table

/-- Retry loop of ObjectMemory::inflate_for_id: on CAS failure re-read;
if the header is now inflated, put the id into the record it points at,
clear the abandoned record and return; otherwise refresh the candidate
record from the new header value and retry. -/
def inflateForIdLoop (id idx : Nat) (ih : InflatedHeader) (orig : HeaderWord)
    (sched : List HeaderWord) (table : InflatedTable) : InflateResult :=
  match sched with
  | [] =>
    let nw := inflatedWord orig idx
    { ok := true, header := nw, table := table.set idx ih, writes := [nw], installed := true }
  | w :: rest =>
    if w = orig then
      let nw := inflatedWord orig idx
      { ok := true, header := nw, table := table.set idx ih, writes := [nw], installed := true }
    else if w.meaning = .eAuxWordInflated then
      let t2 := table.set idx ih
      let t3 := t2.set w.aux_word ((t2.get w.aux_word).set_object_id id)
      let t4 := t3.set idx ((t3.get idx).clear)
      { ok := true, header := w, table := t4, writes := [], installed := false }
    else
      inflateForIdLoop id idx ((ih.update w).set_object_id id) w rest table

/-- ObjectMemory::inflate_for_id (object_memory.cpp:658).  Runs under
the inflation spinlock; void in the source, so `ok` is always true. -/
def inflate_for_id (id m : Nat) (h0 : HeaderWord) (table : InflatedTable)
    (sched : List HeaderWord) : InflateResult :=
  if h0.meaning = .eAuxWordInflated then
    { ok := true, header := h0,
      table := table.set h0.aux_word ((table.get h0.aux_word).set_object_id id),
      writes := [], installed := false }
  else
    let p := table.allocate
    let ih := ((InflatedHeader.fresh.update h0).set_object_id id).mark_record m
    inflateForIdLoop id p.2 ih h0 sched p.1

/-- Retry loop of ObjectMemory::inflate_for_handle, mirror image of the
inflate_for_id loop, storing a handle instead of an id. -/
def inflateForHandleLoop (hd idx : Nat) (ih : InflatedHeader) (orig : HeaderWord)
    (sched : List HeaderWord) (table : InflatedTable) : InflateResult :=
  match sched with
  | [] =>
    let nw := inflatedWord orig idx
    { ok := true, header := nw, table := table.set idx ih, writes := [nw], installed := true }
  | w :: rest =>
    if w = orig then
      let nw := inflatedWord orig idx
      { ok := true, header := nw, table := table.set idx ih, writes := [nw], installed := true }
    else if w.meaning = .eAuxWordInflated then
      let t2 := table.set idx ih
      let t3 := t2.set w.aux_word ((t2.get w.aux_word).set_handle hd)
      let t4 := t3.set idx ((t3.get idx).clear)
      { ok := true, header := w, table := t4, writes := [], installed := false }
    else
      inflateForHandleLoop hd idx ((ih.update w).set_handle hd) w rest table

/-- ObjectMemory::inflate_for_handle (object_memory.cpp:688).  Runs
under the inflation spinlock; void in the source, so `ok` is always
true. -/
def inflate_for_handle (hd m : Nat) (h0 : HeaderWord) (table : InflatedTable)
    (sched : List HeaderWord) : InflateResult :=
  if h0.meaning = .eAuxWordInflated then
    { ok := true, header := h0,
      table := table.set h0.aux_word ((table.get h0.aux_word).set_handle hd),
      writes := [], installed := false }
  else
    let p := table.allocate
    let ih := ((InflatedHeader.fresh.update h0).set_handle hd).mark_record m
    inflateForHandleLoop hd p.2 ih h0 sched p.1

/-- One wake-up of the wait loop in contend_for_lock: either the timed
wait elapsed, or the thread was woken; a wake carries whether a local
interrupt with a pending interrupted-exception is observed, and the
header value left by the threads that ran meanwhile. -/
inductive WaitKind where
| timedOut
| woke (interruptPending : Bool) (newHeader : HeaderWord)
deriving DecidableEq, Repr

/-- Outcome of the wait loop `while(!obj->inflated_header_p()) ...`. -/
inductive WaitResult where
| inflated (h : HeaderWord)
| timedOut (h : HeaderWord)
| interrupted (h : HeaderWord)
| blocked (h : HeaderWord)
deriving DecidableEq, Repr

/-- Outcome of contend_for_lock.  `ret = none` models a run whose wait
events are exhausted while the thread is still parked on the contention
condition variable.  `acquiredInflated` records that the function fell
through to `ih->lock_mutex` / `ih->lock_mutex_timed` on the inflated
record. -/
structure ContendOutcome where
  ret : Option LockStatus
  acquiredInflated : Bool
  header : HeaderWord
  writes : List HeaderWord
deriving DecidableEq, Repr

/-- The step1 registration loop of contend_for_lock
(object_memory.cpp:188-219): CAS the header from (read value with
meaning forced to eAuxWordLock) to (read value with the contended bit
set); on failure return eLockError if the header is inflated or was not
thin locked, otherwise start over on the new value. -/
def contendStep1 : List HeaderWord → HeaderWord → (Option LockStatus × HeaderWord × List HeaderWord)
  | [], h =>
    if h.meaning = .eAuxWordLock then
      let nw := { h with LockContended := true }
      (none, nw, [nw])
    else if h.meaning = .eAuxWordInflated then (some .eLockError, h, [])
    else (some .eLockError, h, [])
  | w :: rest, h =>
    if w = { h with meaning := .eAuxWordLock } then
      let nw := { h with LockContended := true }
      (none, nw, [nw])
    else if w.meaning = .eAuxWordInflated then (some .eLockError, w, [])
    else if h.meaning ≠ .eAuxWordLock then (some .eLockError, w, [])
    else contendStep1 rest w

/-- The wait loop of contend_for_lock (object_memory.cpp:237-265): wait
on the contention condition variable until the header is inflated, the
timed wait elapses, or an interrupt with a pending interrupted-exception
aborts the wait. -/
def contendWait (timed interrupt : Bool) : List WaitKind → HeaderWord → WaitResult
  | events, h =>
    if h.meaning = .eAuxWordInflated then .inflated h
    else
      match events with
      | [] => .blocked h
      | .timedOut :: rest =>
        if timed then .timedOut h
        else contendWait timed interrupt rest h
      | .woke ip hNew :: rest =>
        if interrupt && ip then .interrupted hNew
        else contendWait timed interrupt rest hNew

/-- ObjectMemory::contend_for_lock (object_memory.cpp:170).  `us` is the
microsecond timeout (0 = wait forever), `mutexResult` abstracts the
result of locking the inflated record's mutex once the loop observes an
inflated header. -/
def contend_for_lock (us : Nat) (interrupt : Bool) (mutexResult : LockStatus)
    (sched : List HeaderWord) (events : List WaitKind) (h0 : HeaderWord) : ContendOutcome :=
  match contendStep1 sched h0 with
  | (some s, h, w) => { ret := some s, acquiredInflated := false, header := h, writes := w }
  | (none, h1, w) =>
    match contendWait (0 < us) interrupt events h1 with
    | .timedOut h => { ret := some .eLockTimeout, acquiredInflated := false, header := h, writes := w }
    | .interrupted h => { ret := some .eLockInterrupted, acquiredInflated := false, header := h, writes := w }
    | .blocked h => { ret := none, acquiredInflated := false, header := h, writes := w }
    | .inflated h => { ret := some mutexResult, acquiredInflated := true, header := h, writes := w }

/-- What one sub-allocator call produces: an object (or none), and
whether the call stores true into the collection flag passed to it by
pointer (BakerGC::allocate writes &collect_young_now,
MarkSweepGC::allocate writes &collect_mature_now; the allocators only
ever set the flag, never clear it). -/
structure AllocOutcome where
  result : Option Nat
  set_flag : Bool
deriving DecidableEq, Repr

/-- The three sub-allocators behind the facade, abstracted as functions
of the requested byte count. -/
structure Allocators where
  young : Nat → AllocOutcome
  immix : Nat → Option Nat
  mark_sweep : Nat → AllocOutcome

/-- Facade-visible state touched by ObjectMemory::allocate_object: the
two collection flags and whether shared_.gc_soon() has been called. -/
structure FacadeState where
  collect_young_now : Bool
  collect_mature_now : Bool
  gc_soon : Bool
deriving DecidableEq, Repr

/-- ObjectMemory::allocate_object (object_memory.cpp:743): requests
above the large-object threshold go straight to mark-sweep; otherwise
young is tried, then immix, then mark-sweep, with the flags and
gc_soon() side effects of the source. -/
def allocate_object (A : Allocators) (large_object_threshold bytes : Nat)
    (s : FacadeState) : Option Nat × FacadeState :=
  if large_object_threshold < bytes then
    let o := A.mark_sweep bytes
    let s1 := { s with collect_mature_now := s.collect_mature_now || o.set_flag }
    match o.result with
    | none => (none, s1)
    | some obj =>
      (some obj, if s1.collect_mature_now then { s1 with gc_soon := true } else s1)
  else
    let oy := A.young bytes
    let s1 := { s with collect_young_now := s.collect_young_now || oy.set_flag }
    match oy.result with
    | some obj => (some obj, s1)
    | none =>
      let s2 := { s1 with collect_young_now := true, gc_soon := true }
      match A.immix bytes with
      | some obj =>
        (some obj, if s2.collect_mature_now then { s2 with gc_soon := true } else s2)
      | none =>
        let o := A.mark_sweep bytes
        let s3 := { s2 with collect_mature_now := s2.collect_mature_now || o.set_flag }
        (o.result, if s3.collect_mature_now then { s3 with gc_soon := true } else s3)

/-- GC-driver state touched by ObjectMemory::collect_maybe. -/
structure GCState where
  can_gc : Bool
  collect_young_now : Bool
  collect_mature_now : Bool
  mature_gc_in_progress : Bool
  mature_mark_concurrent : Bool
  heap : Nat
deriving DecidableEq, Repr

/-- Observable events of one collect_maybe call. -/
inductive GCEvent where
| stopTheWorld
| startFinalizers
| youngGC
| matureGC
| matureFinish
| restartWorld
deriving DecidableEq, Repr

/-- Abstract effects of the collectors on the abstract heap contents.
`young` also reports whether promotion overflow during the young
collection stored true into collect_mature_now
(promote_object → MarkSweepGC::move_object). -/
structure CollectEffects where
  young : Nat → Nat × Bool
  matureStart : Nat → Nat
  mature : Nat → Nat
  matureFinishEff : Nat → Nat

/-- ObjectMemory::collect_young (object_memory.cpp:556): clears
collect_young_now and collects the young generation. -/
def collect_young (eff : CollectEffects) (st : GCState) : GCState :=
  { st with collect_young_now := false,
            heap := (eff.young st.heap).1,
            collect_mature_now := st.collect_mature_now || (eff.young st.heap).2 }

/-- ObjectMemory::collect_mature (object_memory.cpp:596): clears
collect_mature_now; if a mature collection is already in progress the
request is ignored; in concurrent mode only the marker is started. -/
def collect_mature (eff : CollectEffects) (st : GCState) : GCState :=
  let st1 := { st with collect_mature_now := false }
  if st1.mature_gc_in_progress then st1
  else if st1.mature_mark_concurrent then
    { st1 with heap := eff.matureStart st1.heap, mature_gc_in_progress := true }
  else
    { st1 with heap := eff.mature st1.heap }

/-- ObjectMemory::collect_maybe (object_memory.cpp:491), serialized
semantics: the stop-the-world loop is modelled as succeeding (the
checkpoint race in the source only re-runs the flag test, which a peer
driver can falsify — that early return coincides with the no-flag
branch).  Returns the new state and the trace of events. -/
def collect_maybe (eff : CollectEffects) (st : GCState) : GCState × List GCEvent :=
  if st.can_gc = false then (st, [])
  else if st.collect_young_now = false ∧ st.collect_mature_now = false then (st, [])
  else
    let p1 : GCState × List GCEvent :=
      if st.collect_young_now then (collect_young eff st, [GCEvent.youngGC]) else (st, [])
    let p2 : GCState × List GCEvent :=
      if p1.1.collect_mature_now then
        let stm := collect_mature eff p1.1
        if p1.1.mature_mark_concurrent then (stm, [GCEvent.matureGC])
        else ({ stm with heap := eff.matureFinishEff stm.heap },
              [GCEvent.matureGC, GCEvent.matureFinish])
      else (p1.1, [])
    (p2.1, [GCEvent.stopTheWorld, GCEvent.startFinalizers] ++ p1.2 ++ p2.2 ++ [GCEvent.restartWorld])

/-- The two globals behind the XMALLOC family (object_memory.cpp:52):
both C long, hence Int. -/
structure MallocState where
  gc_malloc_threshold : Int
  bytes_until_collection : Int
deriving DecidableEq, Repr

/-- XMALLOC (object_memory.cpp:1041): returns the new globals and
whether VM::current()->run_gc_soon() was called. -/
def XMALLOC (bytes : Nat) (s : MallocState) : MallocState × Bool :=
  let b := s.bytes_until_collection - (bytes : Int)
  if b ≤ 0 then ({ s with bytes_until_collection := s.gc_malloc_threshold }, true)
  else ({ s with bytes_until_collection := b }, false)

/-- XREALLOC (object_memory.cpp:1054): same accounting as XMALLOC. -/
def XREALLOC (bytes : Nat) (s : MallocState) : MallocState × Bool :=
  let b := s.bytes_until_collection - (bytes : Int)
  if b ≤ 0 then ({ s with bytes_until_collection := s.gc_malloc_threshold }, true)
  else ({ s with bytes_until_collection := b }, false)

/-- XCALLOC (object_memory.cpp:1064): accounts bytes_per * items. -/
def XCALLOC (items bytes_per : Nat) (s : MallocState) : MallocState × Bool :=
  let bytes := bytes_per * items
  let b := s.bytes_until_collection - (bytes : Int)
  if b ≤ 0 then ({ s with bytes_until_collection := s.gc_malloc_threshold }, true)
  else ({ s with bytes_until_collection := b }, false)

/-- Per-block statistics read by the diagnostics pass of
ImmixGC::sweep (immix.cpp:316-321). -/
structure BlockStats where
  holes : Nat
  objects : Nat
  object_bytes : Nat
deriving DecidableEq, Repr

/-- Modelled from the spec: immix::cBlockSize (immix.hpp, not under
src/); §4.4 of the spec: blocks of ~32 KiB. -/
def cBlockSize : Nat := 32768

/-- The diagnostics computed at the end of ImmixGC::sweep.  The C++
percentage_ is (double)bytes_/(double)total_bytes_; it is modelled as
exact rational division.  At the counterexample input below the IEEE
quotient 294912/327680 rounds to exactly the same double as the literal
0.90, so the modelled comparison agrees with the source there. -/
structure SweepDiagnostics where
  chunks : Nat
  holes : Nat
  objects : Nat
  bytes : Nat
  total_bytes : Nat
  percentage : ℚ
deriving DecidableEq, Repr

/-- The diagnostics loop of ImmixGC::sweep (immix.cpp:311-327). -/
def sweep_diagnostics (chunks : Nat) (blocks : List BlockStats) : SweepDiagnostics :=
  { chunks := chunks,
    holes := (blocks.map BlockStats.holes).sum,
    objects := (blocks.map BlockStats.objects).sum,
    bytes := (blocks.map BlockStats.object_bytes).sum,
    total_bytes := blocks.length * cBlockSize,
    percentage := ((blocks.map BlockStats.object_bytes).sum : ℚ) / ((blocks.length * cBlockSize : Nat) : ℚ) }

/-- The chunk-extension decision after sweep (immix.cpp:330):
`if(diagnostics_.percentage_ >= 0.90) gc_.block_allocator().add_chunk();`. -/
def sweep_requests_extension (chunks : Nat) (blocks : List BlockStats) : Bool :=
  decide ((9 : ℚ) / 10 ≤ (sweep_diagnostics chunks blocks).percentage)

/-- State of the object-id assignment: the global counter
last_object_id (initialized to 1 in the ObjectMemory constructor) and
the ids of the objects, indexed by position (0 = unassigned). -/
structure IdState where
  last_object_id : Nat
  ids : List Nat
deriving DecidableEq, Repr

/-- ObjectMemory::assign_object_id (object_memory.cpp:134): if the
object already has a positive id, do nothing; otherwise give it the old
value of the counter and bump the counter
(atomic::fetch_and_add(&last_object_id, 1)). -/
def assign_object_id (s : IdState) (i : Nat) : IdState :=
  if 0 < s.ids.getD i 0 then s
  else { last_object_id := s.last_object_id + 1,
         ids := s.ids.set i s.last_object_id }

/-- A serialized run of assign_object_id calls. -/
def run_assigns (s : IdState) : List Nat → IdState
  | [] => s
  | i :: rest => run_assigns (assign_object_id s i) rest

/-- The state right after ObjectMemory's constructor with `n` objects:
last_object_id = 1 and no object has an id yet. -/
def initial_id_state (n : Nat) : IdState :=
  { last_object_id := 1, ids := List.replicate n 0 }

/-- One invocation of an inflation path with its interference schedule.
All five paths run under the single process-wide inflation spinlock
(utilities::thread::SpinLock::LockGuard guard(inflation_lock_) at the
top of each), so any execution is a serialized sequence of them. -/
inductive InflOp where
| lockCountOverflow (tid count m : Nat) (sched : List HeaderWord)
| andLock (tid m : Nat) (sched : List HeaderWord)
| forContention (tid m : Nat) (sched : List HeaderWord)
| forId (id m : Nat) (sched : List HeaderWord)
| forHandle (hd m : Nat) (sched : List HeaderWord)
deriving Repr

/-- Run one inflation-path invocation on the header cell and table. -/
def runInflOp (op : InflOp) (h : HeaderWord) (t : InflatedTable) : InflateResult :=
  match op with
  | .lockCountOverflow tid count m sched => inflate_lock_count_overflow tid count m h t sched
  | .andLock tid m sched => inflate_and_lock tid m h t sched
  | .forContention tid m sched => inflate_for_contention tid m h t sched
  | .forId id m sched => inflate_for_id id m h t sched
  | .forHandle hd m sched => inflate_for_handle hd m h t sched

/-- Number of successful installs of a candidate Inflated record over a
serialized sequence of inflation-path invocations on one object. -/
def countInstalls : List InflOp → HeaderWord → InflatedTable → Nat
  | [], _, _ => 0
  | op :: rest, h, t =>
    (if (runInflOp op h t).installed then 1 else 0)
      + countInstalls rest (runInflOp op h t).header (runInflOp op h t).table

/-- Ten immix blocks whose post-sweep live fraction is exactly 90%:
nine full 32 KiB blocks and one empty one. -/
def c7Blocks : List BlockStats :=
  [⟨0, 1, 32768⟩, ⟨0, 1, 32768⟩, ⟨0, 1, 32768⟩, ⟨0, 1, 32768⟩, ⟨0, 1, 32768⟩,
   ⟨0, 1, 32768⟩, ⟨0, 1, 32768⟩, ⟨0, 1, 32768⟩, ⟨0, 1, 32768⟩, ⟨1, 0, 0⟩]

/-- The invariant maintained by assign_object_id: the counter is
positive, strictly dominates every assigned id, and assigned ids are
pairwise distinct. -/
def IdInv (s : IdState) : Prop :=
  0 < s.last_object_id ∧
  (∀ j, s.ids.getD j 0 < s.last_object_id) ∧
  (∀ j k, j ≠ k → 0 < s.ids.getD j 0 → s.ids.getD j 0 ≠ s.ids.getD k 0)

/-- A header thin-locked by thread 2 with recursion count 1 and the
contended bit clear. -/
def c3Header : HeaderWord :=
  { meaning := .eAuxWordLock, aux_word := 2 * 256 + 1, LockContended := false }

/-- A header thin-locked by thread 1 with recursion count 5. -/
def c5Header : HeaderWord :=
  { meaning := .eAuxWordLock, aux_word := 1 * 256 + 5, LockContended := false }

/-! ### Helper lemmas -/

theorem InflatedTable.get_set_self (t : InflatedTable) (i : Nat) (ih : InflatedHeader)
    (hi : i < t.records.length) : (t.set i ih).get i = ih := by
  simp [InflatedTable.get, InflatedTable.set, List.getD, List.getElem?_set_self, hi]

theorem InflatedTable.get_set_ne (t : InflatedTable) (i j : Nat) (ih : InflatedHeader)
    (hij : i ≠ j) : (t.set i ih).get j = t.get j := by
  simp [InflatedTable.get, InflatedTable.set, List.getD, List.getElem?_set_ne, hij]

theorem InflatedTable.allocate_len (t : InflatedTable) :
    t.allocate.2 < t.allocate.1.records.length := by
  simp [InflatedTable.allocate]

/-! ### Claim theorems -/

/-- Claim C6: every call to XMALLOC, XREALLOC or XCALLOC decrements the
global bytes-until-collection counter by the requested byte count; a
mature collection is requested (run_gc_soon) exactly when the decremented
counter is non-positive, and then the counter is reset to the configured
malloc threshold, so after every such call the counter is strictly
positive whenever the threshold is. -/
theorem claim_C6_malloc_accounting (bytes items bytes_per : Nat) (s : MallocState) :
    ((XMALLOC bytes s).2 = true ↔ s.bytes_until_collection - (bytes : Int) ≤ 0) ∧
    (XMALLOC bytes s).1.bytes_until_collection =
      (if s.bytes_until_collection - (bytes : Int) ≤ 0 then s.gc_malloc_threshold
       else s.bytes_until_collection - (bytes : Int)) ∧
    (0 < s.gc_malloc_threshold → 0 < (XMALLOC bytes s).1.bytes_until_collection) ∧
    XREALLOC bytes s = XMALLOC bytes s ∧
    XCALLOC items bytes_per s = XMALLOC (bytes_per * items) s := by
  unfold XMALLOC XREALLOC XCALLOC
  by_cases h : s.bytes_until_collection - (bytes : Int) ≤ 0 <;>
    by_cases h2 : s.bytes_until_collection - ((bytes_per * items : Nat) : Int) ≤ 0 <;>
    simp [h, h2] <;> omega

/-- Witness for claim C6 at a concrete call. -/
theorem claim_C6_witness :
    (XMALLOC 7 ⟨10, 5⟩).2 = true ∧ (XMALLOC 7 ⟨10, 5⟩).1.bytes_until_collection = 10 := by
  have h := claim_C6_malloc_accounting 7 1 1 ⟨10, 5⟩
  exact ⟨h.1.mpr (by decide), by rw [h.2.1]; decide⟩

/-- Claim C7 as stated is false: at a post-sweep live fraction of exactly
90% the code requests a chunk extension although the fraction does not
exceed 90%.  At this input the IEEE quotient rounds to the same double
as the literal 0.90, so the source comparison holds with equality just
as in the rational model. -/
theorem claim_C7_counterexample :
    sweep_requests_extension 1 c7Blocks = true ∧
    ¬ ((9 : ℚ) / 10 < (sweep_diagnostics 1 c7Blocks).percentage) := by
  have hp : (sweep_diagnostics 1 c7Blocks).percentage = (9 : ℚ) / 10 := by
    simp only [sweep_diagnostics, c7Blocks, List.map_cons, List.map_nil, List.sum_cons,
      List.sum_nil, List.length_cons, List.length_nil, cBlockSize]
    norm_num
  constructor
  · simp only [sweep_requests_extension, hp, decide_eq_true_eq]
    exact le_refl _
  · rw [hp]
    exact lt_irrefl _

/-- Claim C7 (amended): after the sweep-phase diagnostics, a chunk
extension is requested if and only if the live fraction (summed object
bytes over block count times block size) is at least 90%; the comparison
in the source is `percentage_ >= 0.90`, not a strict one. -/
theorem claim_C7_sweep_extension (chunks : Nat) (blocks : List BlockStats) :
    (sweep_requests_extension chunks blocks = true ↔
      (9 : ℚ) / 10 ≤ ((blocks.map BlockStats.object_bytes).sum : ℚ)
                       / ((blocks.length * cBlockSize : Nat) : ℚ)) ∧
    (sweep_diagnostics chunks blocks).bytes = (blocks.map BlockStats.object_bytes).sum ∧
    (sweep_diagnostics chunks blocks).total_bytes = blocks.length * cBlockSize := by
  refine ⟨?_, rfl, rfl⟩
  simp [sweep_requests_extension, sweep_diagnostics]

theorem getD_replicate_zero (n j : Nat) : (List.replicate n (0 : Nat)).getD j 0 = 0 := by
  rw [List.getD_eq_getElem?_getD, List.getElem?_replicate]
  by_cases h : j < n <;> simp [h]

theorem idInv_initial (n : Nat) : IdInv (initial_id_state n) := by
  refine ⟨Nat.one_pos, ?_, ?_⟩
  · intro j
    show (List.replicate n 0).getD j 0 < 1
    rw [getD_replicate_zero]
    exact Nat.one_pos
  · intro j k _ hj
    have : (List.replicate n (0 : Nat)).getD j 0 = 0 := getD_replicate_zero n j
    rw [show (initial_id_state n).ids = List.replicate n 0 from rfl, this] at hj
    omega

theorem idState_getD_set (l : List Nat) (i j v : Nat) :
    (l.set i v).getD j 0 = if i = j ∧ i < l.length then v else l.getD j 0 := by
  rw [List.getD_eq_getElem?_getD, List.getD_eq_getElem?_getD, List.getElem?_set]
  by_cases hij : i = j
  · subst hij
    by_cases hi : i < l.length
    · simp [hi]
    · simp [hi, List.getElem?_eq_none (Nat.le_of_not_lt hi)]
  · simp [hij]

theorem idInv_preserved (s : IdState) (i : Nat) (h : IdInv s) :
    IdInv (assign_object_id s i) := by
  obtain ⟨hpos, hlt, hdist⟩ := h
  unfold assign_object_id
  by_cases hi : 0 < s.ids.getD i 0
  · rw [if_pos hi]
    exact ⟨hpos, hlt, hdist⟩
  · rw [if_neg hi]
    refine ⟨Nat.succ_pos _, ?_, ?_⟩
    · intro j
      show (s.ids.set i s.last_object_id).getD j 0 < s.last_object_id + 1
      rw [idState_getD_set]
      by_cases hc : i = j ∧ i < s.ids.length
      · rw [if_pos hc]
        omega
      · rw [if_neg hc]
        exact Nat.lt_succ_of_lt (hlt j)
    · intro j k hjk hj
      show (s.ids.set i s.last_object_id).getD j 0 ≠ (s.ids.set i s.last_object_id).getD k 0
      rw [idState_getD_set] at hj ⊢
      rw [idState_getD_set]
      by_cases hcj : i = j ∧ i < s.ids.length
      · rw [if_pos hcj] at hj ⊢
        by_cases hck : i = k ∧ i < s.ids.length
        · exact absurd (hcj.1.symm.trans hck.1) hjk
        · rw [if_neg hck]
          exact fun he => absurd he.symm (Nat.ne_of_lt (hlt k))
      · rw [if_neg hcj] at hj ⊢
        by_cases hck : i = k ∧ i < s.ids.length
        · rw [if_pos hck]
          exact Nat.ne_of_lt (hlt j)
        · rw [if_neg hck]
          exact hdist j k hjk hj

theorem idInv_run (n : Nat) (ops : List Nat) :
    IdInv (run_assigns (initial_id_state n) ops) := by
  have h : ∀ (l : List Nat) (s : IdState), IdInv s → IdInv (run_assigns s l) := by
    intro l
    induction l with
    | nil => intro s hs; exact hs
    | cons a rest IH => intro s hs; exact IH _ (idInv_preserved s a hs)
  exact h ops _ (idInv_initial n)

/-- Claim C8: assign_object_id is idempotent on objects that already
have a positive id; a first assignment hands out the current counter
value, which strictly exceeds every id assigned before it (so later
first assignments receive strictly larger ids); and across any
serialized run from the initial state, any two objects that were both
assigned ids hold distinct ids. -/
theorem claim_C8_object_id (s : IdState) (i : Nat) (n : Nat)
    (ops : List Nat) (j k : Nat) :
    (0 < s.ids.getD i 0 → assign_object_id s i = s) ∧
    (IdInv s → s.ids.getD i 0 = 0 → i < s.ids.length →
      (assign_object_id s i).ids.getD i 0 = s.last_object_id ∧
      (assign_object_id s i).last_object_id = s.last_object_id + 1 ∧
      (∀ j2, 0 < s.ids.getD j2 0 →
        s.ids.getD j2 0 < (assign_object_id s i).ids.getD i 0)) ∧
    (j ≠ k → 0 < (run_assigns (initial_id_state n) ops).ids.getD j 0 →
      (run_assigns (initial_id_state n) ops).ids.getD j 0
        ≠ (run_assigns (initial_id_state n) ops).ids.getD k 0) := by
  refine ⟨?_, ?_, ?_⟩
  · intro h
    unfold assign_object_id
    rw [if_pos h]
  · intro hinv hzero hlen
    have hni : ¬ 0 < s.ids.getD i 0 := by omega
    unfold assign_object_id
    rw [if_neg hni]
    refine ⟨?_, rfl, ?_⟩
    · show (s.ids.set i s.last_object_id).getD i 0 = s.last_object_id
      rw [idState_getD_set, if_pos ⟨rfl, hlen⟩]
    · intro j2 hj2
      show s.ids.getD j2 0 < (s.ids.set i s.last_object_id).getD i 0
      rw [idState_getD_set, if_pos ⟨rfl, hlen⟩]
      exact hinv.2.1 j2
  · intro hjk hj
    exact (idInv_run n ops).2.2 j k hjk hj

/-- Witness for claim C8 at a concrete state and run. -/
theorem claim_C8_witness :
    assign_object_id ⟨3, [2]⟩ 0 = ⟨3, [2]⟩ ∧
    (run_assigns (initial_id_state 2) [0, 1, 0]).ids.getD 0 0
      ≠ (run_assigns (initial_id_state 2) [0, 1, 0]).ids.getD 1 0 := by
  refine ⟨(claim_C8_object_id ⟨3, [2]⟩ 0 2 [0, 1, 0] 0 1).1 (by decide),
          (claim_C8_object_id ⟨3, [2]⟩ 0 2 [0, 1, 0] 0 1).2.2 (by decide) ?_⟩
  decide

/-- Claim C1: allocate_object routes requests strictly above the
large-object threshold directly to the mark-sweep space; otherwise the
young allocator is tried first, then immix, then mark-sweep, with
collect_young_now set to true when the young allocator returns null and
collect_mature_now absorbing the mark-sweep allocator's flag decision;
null comes back only when every allocator on the route failed. -/
theorem claim_C1_allocation_routing (A : Allocators) (lot bytes : Nat) (s : FacadeState) :
    (lot < bytes →
      (allocate_object A lot bytes s).1 = (A.mark_sweep bytes).result ∧
      (allocate_object A lot bytes s).2.collect_mature_now
        = (s.collect_mature_now || (A.mark_sweep bytes).set_flag) ∧
      (allocate_object A lot bytes s).2.collect_young_now = s.collect_young_now) ∧
    (¬ lot < bytes →
      (allocate_object A lot bytes s).1
        = ((A.young bytes).result.orElse fun _ =>
            (A.immix bytes).orElse fun _ => (A.mark_sweep bytes).result) ∧
      ((A.young bytes).result = none →
        (allocate_object A lot bytes s).2.collect_young_now = true) ∧
      ((A.young bytes).result = none → A.immix bytes = none →
        (allocate_object A lot bytes s).2.collect_mature_now
          = (s.collect_mature_now || (A.mark_sweep bytes).set_flag)) ∧
      ((allocate_object A lot bytes s).1 = none ↔
        ((A.young bytes).result = none ∧ A.immix bytes = none ∧
          (A.mark_sweep bytes).result = none))) := by
  constructor
  · intro hlot
    unfold allocate_object
    rw [if_pos hlot]
    rcases hms : (A.mark_sweep bytes).result with _ | obj
    · simp [hms]
    · simp [hms]
      constructor <;> (split <;> simp)
  · intro hlot
    unfold allocate_object
    rw [if_neg hlot]
    rcases hy : (A.young bytes).result with _ | yobj
    · rcases him : A.immix bytes with _ | iobj
      · rcases hms : (A.mark_sweep bytes).result with _ | mobj
        all_goals simp [hy, him, hms, Option.orElse]
      · simp [hy, him, Option.orElse]
    · simp [hy, Option.orElse]

/-- Witness for claim C1 on a concrete allocator family where young and
immix fail and mark-sweep succeeds while requesting a mature GC. -/
theorem claim_C1_witness :
    (allocate_object ⟨fun _ => ⟨none, false⟩, fun _ => none, fun _ => ⟨some 7, true⟩⟩
        100 32 ⟨false, false, false⟩).1 = some 7 ∧
    (allocate_object ⟨fun _ => ⟨none, false⟩, fun _ => none, fun _ => ⟨some 7, true⟩⟩
        100 32 ⟨false, false, false⟩).2.collect_young_now = true := by
  have h := (claim_C1_allocation_routing
      ⟨fun _ => ⟨none, false⟩, fun _ => none, fun _ => ⟨some 7, true⟩⟩
      100 32 ⟨false, false, false⟩).2 (by decide)
  exact ⟨h.1, h.2.1 rfl⟩

/-- Claim C2: collect_maybe is a no-op (state unchanged, no events) when
GC is disallowed or neither collection flag is set; otherwise its event
trace starts by stopping the world, ends by restarting it, contains the
young collection exactly when collect_young_now was set, contains the
mature collection whenever collect_mature_now was set at entry, and
every young-collection event precedes every mature-collection event. -/
theorem claim_C2_collect_maybe (eff : CollectEffects) (st : GCState) :
    ((st.can_gc = false ∨ (st.collect_young_now = false ∧ st.collect_mature_now = false)) →
      collect_maybe eff st = (st, [])) ∧
    (st.can_gc = true → (st.collect_young_now = true ∨ st.collect_mature_now = true) →
      (collect_maybe eff st).2.head? = some GCEvent.stopTheWorld ∧
      (collect_maybe eff st).2.getLast? = some GCEvent.restartWorld ∧
      (GCEvent.youngGC ∈ (collect_maybe eff st).2 ↔ st.collect_young_now = true) ∧
      (st.collect_mature_now = true → GCEvent.matureGC ∈ (collect_maybe eff st).2) ∧
      (∃ l1 l2, (collect_maybe eff st).2 = l1 ++ l2 ∧
        GCEvent.matureGC ∉ l1 ∧ GCEvent.youngGC ∉ l2)) := by
  constructor
  · intro h
    unfold collect_maybe
    rcases h with h | ⟨h1, h2⟩
    · rw [if_pos h]
    · rcases hc : st.can_gc with _ | _
      · rw [if_pos rfl]
      · rw [if_neg (by simp), if_pos ⟨h1, h2⟩]
  · intro hcan hflags
    have hng : ¬ st.can_gc = false := by rw [hcan]; simp
    have hnf : ¬ (st.collect_young_now = false ∧ st.collect_mature_now = false) := by
      rcases hflags with h | h <;> rw [h] <;> simp
    by_cases hy : st.collect_young_now = true
    · rcases hmn : st.collect_mature_now with _ | _ <;>
        rcases hpr : (eff.young st.heap).2 with _ | _
      · have htr : (collect_maybe eff st).2 =
            [GCEvent.stopTheWorld, GCEvent.startFinalizers, GCEvent.youngGC,
             GCEvent.restartWorld] := by
          simp [collect_maybe, collect_young, hng, hnf, hy, hmn, hpr]
        rw [htr]
        exact ⟨rfl, by decide, by rw [hy]; decide,
          fun hmT => Bool.noConfusion hmT,
          ⟨[GCEvent.stopTheWorld, GCEvent.startFinalizers, GCEvent.youngGC,
            GCEvent.restartWorld], [], by simp, by decide, by decide⟩⟩
      all_goals
        by_cases hcc : st.mature_mark_concurrent = true
      all_goals
        first
        | (have htr : (collect_maybe eff st).2 =
              [GCEvent.stopTheWorld, GCEvent.startFinalizers, GCEvent.youngGC,
               GCEvent.matureGC, GCEvent.restartWorld] := by
             simp [collect_maybe, collect_young, hng, hnf, hy, hmn, hpr, hcc]
           rw [htr]
           exact ⟨rfl, by decide, by rw [hy]; decide, fun _ => by decide,
             ⟨[GCEvent.stopTheWorld, GCEvent.startFinalizers, GCEvent.youngGC],
              [GCEvent.matureGC, GCEvent.restartWorld], rfl, by decide, by decide⟩⟩)
        | (have htr : (collect_maybe eff st).2 =
              [GCEvent.stopTheWorld, GCEvent.startFinalizers, GCEvent.youngGC,
               GCEvent.matureGC, GCEvent.matureFinish, GCEvent.restartWorld] := by
             simp [collect_maybe, collect_young, hng, hnf, hy, hmn, hpr, hcc]
           rw [htr]
           exact ⟨rfl, by decide, by rw [hy]; decide, fun _ => by decide,
             ⟨[GCEvent.stopTheWorld, GCEvent.startFinalizers, GCEvent.youngGC],
              [GCEvent.matureGC, GCEvent.matureFinish, GCEvent.restartWorld],
              rfl, by decide, by decide⟩⟩)
    · have hm : st.collect_mature_now = true := by
        rcases hflags with h | h
        · exact absurd h hy
        · exact h
      by_cases hcc : st.mature_mark_concurrent = true
      · have htr : (collect_maybe eff st).2 =
            [GCEvent.stopTheWorld, GCEvent.startFinalizers, GCEvent.matureGC,
             GCEvent.restartWorld] := by
          simp [collect_maybe, collect_young, hng, hnf, hy, hm, hcc]
        rw [htr]
        refine ⟨rfl, by decide, ?_, fun _ => by decide,
          ⟨[GCEvent.stopTheWorld, GCEvent.startFinalizers],
           [GCEvent.matureGC, GCEvent.restartWorld], rfl, by decide, by decide⟩⟩
        constructor
        · intro hmem
          exact absurd hmem (by decide)
        · intro hyt
          exact absurd hyt hy
      · have htr : (collect_maybe eff st).2 =
            [GCEvent.stopTheWorld, GCEvent.startFinalizers, GCEvent.matureGC,
             GCEvent.matureFinish, GCEvent.restartWorld] := by
          simp [collect_maybe, collect_young, hng, hnf, hy, hm, hcc]
        rw [htr]
        refine ⟨rfl, by decide, ?_, fun _ => by decide,
          ⟨[GCEvent.stopTheWorld, GCEvent.startFinalizers],
           [GCEvent.matureGC, GCEvent.matureFinish, GCEvent.restartWorld],
           rfl, by decide, by decide⟩⟩
        constructor
        · intro hmem
          exact absurd hmem (by decide)
        · intro hyt
          exact absurd hyt hy

/-- Witness for claim C2 at a concrete state with both flags set. -/
theorem claim_C2_witness :
    collect_maybe ⟨fun h => (h + 1, false), fun h => h, fun h => h, fun h => h⟩
        ⟨false, true, true, false, false, 0⟩ = (⟨false, true, true, false, false, 0⟩, []) ∧
    (collect_maybe ⟨fun h => (h + 1, false), fun h => h, fun h => h, fun h => h⟩
        ⟨true, true, true, false, false, 0⟩).2.head? = some GCEvent.stopTheWorld := by
  constructor
  · exact (claim_C2_collect_maybe ⟨fun h => (h + 1, false), fun h => h, fun h => h, fun h => h⟩
      ⟨false, true, true, false, false, 0⟩).1 (Or.inl rfl)
  · exact ((claim_C2_collect_maybe ⟨fun h => (h + 1, false), fun h => h, fun h => h, fun h => h⟩
      ⟨true, true, true, false, false, 0⟩).2 rfl (Or.inl rfl)).1

/-- Claim C3 as stated is false: on a timed-out contention wait the call
does return eLockTimeout without acquiring the lock, but it does have a
side effect on the contended object's header word: the registration CAS
set the advisory contended bit, and that bit stays set after the
timeout. -/
theorem claim_C3_counterexample :
    (contend_for_lock 10 false .eLocked [] [WaitKind.timedOut] c3Header).ret
      = some LockStatus.eLockTimeout ∧
    (contend_for_lock 10 false .eLocked [] [WaitKind.timedOut] c3Header).acquiredInflated
      = false ∧
    (contend_for_lock 10 false .eLocked [] [WaitKind.timedOut] c3Header).header ≠ c3Header := by
  decide

/-- Claim C3 (amended): with a positive microsecond timeout on a
thin-locked header, when the wait elapses without the header becoming
inflated, contend_for_lock returns eLockTimeout without acquiring the
lock; its only effect on the header word is setting the advisory
contended bit while registering contention (which remains set) — the
meaning and the auxiliary word (owner, recursion count) are untouched. -/
theorem claim_C3_timeout (us : Nat) (h0 : HeaderWord) (interrupt : Bool)
    (mres : LockStatus) (rest : List WaitKind)
    (hus : 0 < us) (hmean : h0.meaning = .eAuxWordLock) :
    (contend_for_lock us interrupt mres [] (WaitKind.timedOut :: rest) h0).ret
      = some LockStatus.eLockTimeout ∧
    (contend_for_lock us interrupt mres [] (WaitKind.timedOut :: rest) h0).acquiredInflated
      = false ∧
    (contend_for_lock us interrupt mres [] (WaitKind.timedOut :: rest) h0).header
      = { h0 with LockContended := true } ∧
    (contend_for_lock us interrupt mres [] (WaitKind.timedOut :: rest) h0).writes
      = [{ h0 with LockContended := true }] := by
  have hstep : contendStep1 [] h0 = (none, { h0 with LockContended := true },
      [{ h0 with LockContended := true }]) := by
    simp [contendStep1, hmean]
  have hwait : contendWait (0 < us) interrupt (WaitKind.timedOut :: rest)
      { h0 with LockContended := true }
      = WaitResult.timedOut { h0 with LockContended := true } := by
    unfold contendWait
    rw [if_neg (by simp [hmean])]
    simp [hus]
  simp [contend_for_lock, hstep, hwait]

/-- Witness for the amended claim C3 at a concrete thin-locked header. -/
theorem claim_C3_witness :
    (contend_for_lock 10 true .eLocked [] [WaitKind.timedOut] c3Header).ret
      = some LockStatus.eLockTimeout ∧
    (contend_for_lock 10 true .eLocked [] [WaitKind.timedOut] c3Header).header
      = { c3Header with LockContended := true } :=
  ⟨(claim_C3_timeout 10 c3Header true .eLocked [] (by decide) (by decide)).1,
   (claim_C3_timeout 10 c3Header true .eLocked [] (by decide) (by decide)).2.2.1⟩

theorem InflatedTable.get_allocate (t : InflatedTable) (j : Nat)
    (hj : j < t.records.length) : t.allocate.1.get j = t.get j := by
  simp [InflatedTable.allocate, InflatedTable.get, List.getD_eq_getElem?_getD,
    List.getElem?_append_left hj]

theorem inflateLockCountOverflowLoop_writes (tid count idx : Nat) :
    ∀ (sched : List HeaderWord) (ih : InflatedHeader) (orig : HeaderWord)
      (t : InflatedTable) (x : HeaderWord),
      x ∈ (inflateLockCountOverflowLoop tid count idx ih orig sched t).writes →
      x.meaning = .eAuxWordInflated := by
  intro sched
  induction sched with
  | nil =>
    intro ih orig t x hx
    simp [inflateLockCountOverflowLoop] at hx
    simp [hx, inflatedWord]
  | cons w rest IH =>
    intro ih orig t x hx
    by_cases hw : w = orig
    · simp [inflateLockCountOverflowLoop, hw] at hx
      simp [hx, inflatedWord]
    · by_cases hinf : w.meaning = .eAuxWordInflated
      · simp [inflateLockCountOverflowLoop, hw, hinf] at hx
      · simp only [inflateLockCountOverflowLoop, if_neg hw, if_neg hinf] at hx
        exact IH _ _ _ x hx

theorem inflateAndLockLoop_writes (idx : Nat) (ih : InflatedHeader) :
    ∀ (sched : List HeaderWord) (orig : HeaderWord) (t : InflatedTable) (x : HeaderWord),
      x ∈ (inflateAndLockLoop idx ih orig sched t).writes →
      x.meaning = .eAuxWordInflated := by
  intro sched
  induction sched with
  | nil =>
    intro orig t x hx
    simp [inflateAndLockLoop] at hx
    simp [hx, inflatedWord]
  | cons w rest IH =>
    intro orig t x hx
    by_cases hw : w = orig
    · simp [inflateAndLockLoop, hw] at hx
      simp [hx, inflatedWord]
    · by_cases hme : orig.meaning ≠ w.meaning
      · simp [inflateAndLockLoop, hw, hme] at hx
      · by_cases hinf : w.meaning = .eAuxWordInflated
        · simp [inflateAndLockLoop, hw, hme, hinf] at hx
        · simp only [inflateAndLockLoop, if_neg hw, if_neg hme, if_neg hinf] at hx
          exact IH _ _ x hx

theorem inflateForContentionGo_writes (tid m : Nat) :
    ∀ (sched : List HeaderWord) (h : HeaderWord) (t : InflatedTable) (x : HeaderWord),
      x ∈ (inflateForContentionGo tid m sched h t).writes →
      x.meaning = .eAuxWordInflated := by
  intro sched
  induction sched with
  | nil =>
    intro h t x hx
    rcases hc : ifcCandidate tid h with _ | ih0
    · simp [inflateForContentionGo, hc] at hx
    · simp [inflateForContentionGo, hc] at hx
      rcases hx with hx | hx <;> simp [hx, inflatedWord]
  | cons w rest IH =>
    intro h t x hx
    rcases hc : ifcCandidate tid h with _ | ih0
    · simp [inflateForContentionGo, hc] at hx
    · by_cases hw : w = h
      · simp [inflateForContentionGo, hc, hw] at hx
        rcases hx with hx | hx <;> simp [hx, inflatedWord]
      · simp only [inflateForContentionGo, hc, if_neg hw] at hx
        exact IH _ _ x hx

theorem inflateForIdLoop_writes (id idx : Nat) :
    ∀ (sched : List HeaderWord) (ih : InflatedHeader) (orig : HeaderWord)
      (t : InflatedTable) (x : HeaderWord),
      x ∈ (inflateForIdLoop id idx ih orig sched t).writes →
      x.meaning = .eAuxWordInflated := by
  intro sched
  induction sched with
  | nil =>
    intro ih orig t x hx
    simp [inflateForIdLoop] at hx
    simp [hx, inflatedWord]
  | cons w rest IH =>
    intro ih orig t x hx
    by_cases hw : w = orig
    · simp [inflateForIdLoop, hw] at hx
      simp [hx, inflatedWord]
    · by_cases hinf : w.meaning = .eAuxWordInflated
      · simp [inflateForIdLoop, hw, hinf] at hx
      · simp only [inflateForIdLoop, if_neg hw, if_neg hinf] at hx
        exact IH _ _ _ x hx

theorem inflateForHandleLoop_writes (hd idx : Nat) :
    ∀ (sched : List HeaderWord) (ih : InflatedHeader) (orig : HeaderWord)
      (t : InflatedTable) (x : HeaderWord),
      x ∈ (inflateForHandleLoop hd idx ih orig sched t).writes →
      x.meaning = .eAuxWordInflated := by
  intro sched
  induction sched with
  | nil =>
    intro ih orig t x hx
    simp [inflateForHandleLoop] at hx
    simp [hx, inflatedWord]
  | cons w rest IH =>
    intro ih orig t x hx
    by_cases hw : w = orig
    · simp [inflateForHandleLoop, hw] at hx
      simp [hx, inflatedWord]
    · by_cases hinf : w.meaning = .eAuxWordInflated
      · simp [inflateForHandleLoop, hw, hinf] at hx
      · simp only [inflateForHandleLoop, if_neg hw, if_neg hinf] at hx
        exact IH _ _ _ x hx

theorem inflateAndLockLoop_ok (idx : Nat) (ih : InflatedHeader) :
    ∀ (sched : List HeaderWord) (orig : HeaderWord) (t : InflatedTable),
      (inflateAndLockLoop idx ih orig sched t).ok = true →
      (inflateAndLockLoop idx ih orig sched t).table = t.set idx ih ∧
      (inflateAndLockLoop idx ih orig sched t).header.meaning = .eAuxWordInflated ∧
      (inflateAndLockLoop idx ih orig sched t).header.aux_word = idx := by
  intro sched
  induction sched with
  | nil =>
    intro orig t _
    exact ⟨rfl, rfl, rfl⟩
  | cons w rest IH =>
    intro orig t hok
    by_cases hw : w = orig
    · simp [inflateAndLockLoop, hw, inflatedWord]
    · by_cases hme : orig.meaning ≠ w.meaning
      · simp [inflateAndLockLoop, hw, hme] at hok
      · by_cases hinf : w.meaning = .eAuxWordInflated
        · simp [inflateAndLockLoop, hw, hme, hinf] at hok
        · simp only [inflateAndLockLoop, if_neg hw, if_neg hme, if_neg hinf] at hok ⊢
          exact IH _ _ hok

theorem inflateLockCountOverflowLoop_mutex (tid count idx : Nat) :
    ∀ (sched : List HeaderWord) (ih : InflatedHeader) (orig : HeaderWord) (t : InflatedTable),
      ih.owner_id = tid → ih.rec_lock_count = count → idx < t.records.length →
      (inflateLockCountOverflowLoop tid count idx ih orig sched t).ok = true →
      ((inflateLockCountOverflowLoop tid count idx ih orig sched t).table.get idx).owner_id
        = tid ∧
      ((inflateLockCountOverflowLoop tid count idx ih orig sched t).table.get idx).rec_lock_count
        = count := by
  intro sched
  induction sched with
  | nil =>
    intro ih orig t ho hc hlen _
    have ht : (inflateLockCountOverflowLoop tid count idx ih orig [] t).table
        = t.set idx ih := rfl
    rw [ht, InflatedTable.get_set_self t idx ih hlen]
    exact ⟨ho, hc⟩
  | cons w rest IH =>
    intro ih orig t ho hc hlen hok
    by_cases hw : w = orig
    · have ht : (inflateLockCountOverflowLoop tid count idx ih orig (w :: rest) t).table
          = t.set idx ih := by
        simp [inflateLockCountOverflowLoop, hw]
      rw [ht, InflatedTable.get_set_self t idx ih hlen]
      exact ⟨ho, hc⟩
    · by_cases hinf : w.meaning = .eAuxWordInflated
      · simp [inflateLockCountOverflowLoop, hw, hinf] at hok
      · simp only [inflateLockCountOverflowLoop, if_neg hw, if_neg hinf] at hok ⊢
        exact IH _ _ _ rfl rfl hlen hok

theorem inflateLockCountOverflowLoop_installed (tid count idx : Nat) :
    ∀ (sched : List HeaderWord) (ih : InflatedHeader) (orig : HeaderWord) (t : InflatedTable),
      (inflateLockCountOverflowLoop tid count idx ih orig sched t).installed = true →
      (inflateLockCountOverflowLoop tid count idx ih orig sched t).header.meaning
        = .eAuxWordInflated := by
  intro sched
  induction sched with
  | nil =>
    intro ih orig t _
    rfl
  | cons w rest IH =>
    intro ih orig t hi
    by_cases hw : w = orig
    · simp only [inflateLockCountOverflowLoop, if_pos hw]
      rfl
    · by_cases hinf : w.meaning = .eAuxWordInflated
      · simp [inflateLockCountOverflowLoop, hw, hinf] at hi
      · simp only [inflateLockCountOverflowLoop, if_neg hw, if_neg hinf] at hi ⊢
        exact IH _ _ _ hi

theorem inflateAndLockLoop_installed (idx : Nat) (ih : InflatedHeader) :
    ∀ (sched : List HeaderWord) (orig : HeaderWord) (t : InflatedTable),
      (inflateAndLockLoop idx ih orig sched t).installed = true →
      (inflateAndLockLoop idx ih orig sched t).header.meaning = .eAuxWordInflated := by
  intro sched
  induction sched with
  | nil =>
    intro orig t _
    rfl
  | cons w rest IH =>
    intro orig t hi
    by_cases hw : w = orig
    · simp only [inflateAndLockLoop, if_pos hw]
      rfl
    · by_cases hme : orig.meaning ≠ w.meaning
      · simp [inflateAndLockLoop, hw, hme] at hi
      · by_cases hinf : w.meaning = .eAuxWordInflated
        · simp [inflateAndLockLoop, hw, hme, hinf] at hi
        · simp only [inflateAndLockLoop, if_neg hw, if_neg hme, if_neg hinf] at hi ⊢
          exact IH _ _ hi

theorem inflateForContentionGo_installed (tid m : Nat) :
    ∀ (sched : List HeaderWord) (h : HeaderWord) (t : InflatedTable),
      (inflateForContentionGo tid m sched h t).installed = true →
      (inflateForContentionGo tid m sched h t).header.meaning = .eAuxWordInflated := by
  intro sched
  induction sched with
  | nil =>
    intro h t hi
    rcases hc : ifcCandidate tid h with _ | ih0
    · simp [inflateForContentionGo, hc] at hi
    · simp [inflateForContentionGo, hc, inflatedWord]
  | cons w rest IH =>
    intro h t hi
    rcases hc : ifcCandidate tid h with _ | ih0
    · simp [inflateForContentionGo, hc] at hi
    · by_cases hw : w = h
      · simp [inflateForContentionGo, hc, hw, inflatedWord]
      · simp only [inflateForContentionGo, hc, if_neg hw] at hi ⊢
        exact IH _ _ hi

theorem inflateForIdLoop_installed (id idx : Nat) :
    ∀ (sched : List HeaderWord) (ih : InflatedHeader) (orig : HeaderWord) (t : InflatedTable),
      (inflateForIdLoop id idx ih orig sched t).installed = true →
      (inflateForIdLoop id idx ih orig sched t).header.meaning = .eAuxWordInflated := by
  intro sched
  induction sched with
  | nil =>
    intro ih orig t _
    rfl
  | cons w rest IH =>
    intro ih orig t hi
    by_cases hw : w = orig
    · simp only [inflateForIdLoop, if_pos hw]
      rfl
    · by_cases hinf : w.meaning = .eAuxWordInflated
      · simp only [inflateForIdLoop, if_neg hw, if_pos hinf] at hi ⊢
        exact absurd hi (by simp)
      · simp only [inflateForIdLoop, if_neg hw, if_neg hinf] at hi ⊢
        exact IH _ _ _ hi

theorem inflateForHandleLoop_installed (hd idx : Nat) :
    ∀ (sched : List HeaderWord) (ih : InflatedHeader) (orig : HeaderWord) (t : InflatedTable),
      (inflateForHandleLoop hd idx ih orig sched t).installed = true →
      (inflateForHandleLoop hd idx ih orig sched t).header.meaning = .eAuxWordInflated := by
  intro sched
  induction sched with
  | nil =>
    intro ih orig t _
    rfl
  | cons w rest IH =>
    intro ih orig t hi
    by_cases hw : w = orig
    · simp only [inflateForHandleLoop, if_pos hw]
      rfl
    · by_cases hinf : w.meaning = .eAuxWordInflated
      · simp only [inflateForHandleLoop, if_neg hw, if_pos hinf] at hi ⊢
        exact absurd hi (by simp)
      · simp only [inflateForHandleLoop, if_neg hw, if_neg hinf] at hi ⊢
        exact IH _ _ _ hi

theorem runInflOp_inflated_entry (op : InflOp) (h : HeaderWord) (t : InflatedTable)
    (hh : h.meaning = .eAuxWordInflated) :
    (runInflOp op h t).installed = false ∧ (runInflOp op h t).header = h := by
  cases op with
  | lockCountOverflow tid count m sched =>
    simp [runInflOp, inflate_lock_count_overflow, hh]
  | andLock tid m sched =>
    simp [runInflOp, inflate_and_lock, hh]
  | forContention tid m sched =>
    cases sched <;>
      simp [runInflOp, inflate_for_contention, inflateForContentionGo, ifcCandidate, hh]
  | forId id m sched =>
    simp [runInflOp, inflate_for_id, hh]
  | forHandle hd m sched =>
    simp [runInflOp, inflate_for_handle, hh]

theorem runInflOp_installed_header (op : InflOp) (h : HeaderWord) (t : InflatedTable)
    (hi : (runInflOp op h t).installed = true) :
    (runInflOp op h t).header.meaning = .eAuxWordInflated := by
  cases op with
  | lockCountOverflow tid count m sched =>
    by_cases hh : h.meaning = .eAuxWordInflated
    · simp [runInflOp, inflate_lock_count_overflow, hh] at hi
    · simp only [runInflOp, inflate_lock_count_overflow, if_neg hh] at hi ⊢
      exact inflateLockCountOverflowLoop_installed _ _ _ _ _ _ _ hi
  | andLock tid m sched =>
    rcases hm : h.meaning with _ | _ | _ | _ | _
    · simp [runInflOp, inflate_and_lock, hm] at hi
    · simp only [runInflOp, inflate_and_lock, hm] at hi ⊢
      exact inflateAndLockLoop_installed _ _ _ _ _ hi
    · by_cases howner : h.lockOwner ≠ tid
      · simp [runInflOp, inflate_and_lock, hm, howner] at hi
      · simp only [runInflOp, inflate_and_lock, hm, if_neg howner] at hi ⊢
        exact inflateAndLockLoop_installed _ _ _ _ _ hi
    · simp only [runInflOp, inflate_and_lock, hm] at hi ⊢
      exact inflateAndLockLoop_installed _ _ _ _ _ hi
    · simp [runInflOp, inflate_and_lock, hm] at hi
  | forContention tid m sched =>
    simp only [runInflOp, inflate_for_contention] at hi ⊢
    exact inflateForContentionGo_installed _ _ _ _ _ hi
  | forId id m sched =>
    by_cases hh : h.meaning = .eAuxWordInflated
    · simp [runInflOp, inflate_for_id, hh] at hi
    · simp only [runInflOp, inflate_for_id, if_neg hh] at hi ⊢
      exact inflateForIdLoop_installed _ _ _ _ _ _ hi
  | forHandle hd m sched =>
    by_cases hh : h.meaning = .eAuxWordInflated
    · simp [runInflOp, inflate_for_handle, hh] at hi
    · simp only [runInflOp, inflate_for_handle, if_neg hh] at hi ⊢
      exact inflateForHandleLoop_installed _ _ _ _ _ _ hi

theorem countInstalls_inflated (ops : List InflOp) :
    ∀ (h : HeaderWord) (t : InflatedTable), h.meaning = .eAuxWordInflated →
      countInstalls ops h t = 0 := by
  induction ops with
  | nil =>
    intro h t _
    rfl
  | cons op rest IH =>
    intro h t hh
    have he := runInflOp_inflated_entry op h t hh
    have h2 : countInstalls rest (runInflOp op h t).header (runInflOp op h t).table = 0 := by
      apply IH
      rw [he.2]
      exact hh
    simp [countInstalls, he.1, h2]

theorem countInstalls_le_one (ops : List InflOp) :
    ∀ (h : HeaderWord) (t : InflatedTable), countInstalls ops h t ≤ 1 := by
  induction ops with
  | nil =>
    intro h t
    exact Nat.zero_le 1
  | cons op rest IH =>
    intro h t
    by_cases hi : (runInflOp op h t).installed = true
    · have hh := runInflOp_installed_header op h t hi
      have h0 := countInstalls_inflated rest (runInflOp op h t).header (runInflOp op h t).table hh
      simp [countInstalls, hi, h0]
    · rw [Bool.not_eq_true] at hi
      simp only [countInstalls, hi, if_false]
      simpa using IH (runInflOp op h t).header (runInflOp op h t).table

/-- Claim C9: inflation is serialized by the single process-wide
inflation spinlock and installs its candidate record by CAS on the full
header word; consequently, over any serialized sequence of
inflation-path invocations on one object — each with arbitrary
interference on the header cell between its CAS attempts — at most one
candidate Inflated record is ever successfully installed, and none at
all once the header is already inflated. -/
theorem claim_C9_unique_install (ops : List InflOp) (h0 : HeaderWord) (t : InflatedTable) :
    countInstalls ops h0 t ≤ 1 ∧
    (h0.meaning = .eAuxWordInflated → countInstalls ops h0 t = 0) :=
  ⟨countInstalls_le_one ops h0 t, countInstalls_inflated ops h0 t⟩

/-- Witness for claim C9: a concrete serialized run in which the first
operation installs and the second then finds the header inflated. -/
theorem claim_C9_witness :
    countInstalls [InflOp.forContention 1 2 [], InflOp.andLock 1 2 []]
      ⟨.eAuxWordEmpty, 0, false⟩ ⟨[]⟩ ≤ 1 ∧
    countInstalls [InflOp.forContention 1 2 [], InflOp.andLock 1 2 []]
      ⟨.eAuxWordInflated, 0, false⟩ ⟨[]⟩ = 0 :=
  ⟨(claim_C9_unique_install [InflOp.forContention 1 2 [], InflOp.andLock 1 2 []]
      ⟨.eAuxWordEmpty, 0, false⟩ ⟨[]⟩).1,
   (claim_C9_unique_install [InflOp.forContention 1 2 [], InflOp.andLock 1 2 []]
      ⟨.eAuxWordInflated, 0, false⟩ ⟨[]⟩).2 rfl⟩

theorem InflatedTable.get_alloc_set (t : InflatedTable) (ih : InflatedHeader) :
    (t.allocate.1.set t.allocate.2 ih).get t.records.length = ih :=
  InflatedTable.get_set_self t.allocate.1 t.allocate.2 ih t.allocate_len

/-- Claim C5 as stated is false for inflate_lock_count_overflow: called
by the owning thread (tid 1) of a thin lock whose auxiliary word encodes
recursion count 5, with the post-overflow count 6 passed by the caller,
it succeeds but initializes the inflated mutex with count 6, not with
the count encoded in the thin-lock auxiliary word. -/
theorem claim_C5_counterexample :
    (inflate_lock_count_overflow 1 6 2 c5Header ⟨[]⟩ []).ok = true ∧
    c5Header.lockOwner = 1 ∧
    c5Header.lockCount = 5 ∧
    ((inflate_lock_count_overflow 1 6 2 c5Header ⟨[]⟩ []).table.get 0).owner_id = 1 ∧
    ((inflate_lock_count_overflow 1 6 2 c5Header ⟨[]⟩ []).table.get 0).rec_lock_count = 6 ∧
    ¬ (((inflate_lock_count_overflow 1 6 2 c5Header ⟨[]⟩ []).table.get 0).rec_lock_count
        = c5Header.lockCount) := by
  decide

/-- Claim C5 (amended): a thin lock held by thread T survives
inflate_and_lock: whenever it succeeds on a header thin-locked by the
calling thread, the new inflated record's mutex is initialized with
owner T and exactly the recursion count that was encoded in the
thin-lock auxiliary word.  inflate_lock_count_overflow also keeps owner
T, but initializes the mutex's recursion count from its count argument
(the post-overflow count supplied by the caller), not from the count
still encoded in the auxiliary word. -/
theorem claim_C5_lock_preservation (tid count m : Nat) (h0 : HeaderWord)
    (t : InflatedTable) (sched : List HeaderWord)
    (hm : h0.meaning = .eAuxWordLock) :
    (h0.lockOwner = tid →
      (inflate_and_lock tid m h0 t sched).ok = true →
      ((inflate_and_lock tid m h0 t sched).table.get t.records.length).owner_id = tid ∧
      ((inflate_and_lock tid m h0 t sched).table.get t.records.length).rec_lock_count
        = h0.lockCount ∧
      (inflate_and_lock tid m h0 t sched).header.meaning = .eAuxWordInflated ∧
      (inflate_and_lock tid m h0 t sched).header.aux_word = t.records.length) ∧
    ((inflate_lock_count_overflow tid count m h0 t sched).ok = true →
      ((inflate_lock_count_overflow tid count m h0 t sched).table.get
          t.records.length).owner_id = tid ∧
      ((inflate_lock_count_overflow tid count m h0 t sched).table.get
          t.records.length).rec_lock_count = count) := by
  constructor
  · intro howner hok
    have hno : ¬ h0.lockOwner ≠ tid := fun hne => hne howner
    simp only [inflate_and_lock, hm, if_neg hno] at hok ⊢
    have h3 := inflateAndLockLoop_ok _ _ sched h0 _ hok
    refine ⟨?_, ?_, h3.2.1, h3.2.2⟩
    · rw [h3.1, InflatedTable.get_alloc_set]
      rfl
    · rw [h3.1, InflatedTable.get_alloc_set]
      rfl
  · intro hok
    have hni : ¬ h0.meaning = .eAuxWordInflated := by simp [hm]
    simp only [inflate_lock_count_overflow, if_neg hni] at hok ⊢
    exact inflateLockCountOverflowLoop_mutex _ _ _ sched _ h0 _ rfl rfl t.allocate_len hok

/-- Witness for the amended claim C5 at a concrete thin-locked header. -/
theorem claim_C5_witness :
    ((inflate_and_lock 1 2 c5Header ⟨[]⟩ []).table.get 0).owner_id = 1 ∧
    ((inflate_and_lock 1 2 c5Header ⟨[]⟩ []).table.get 0).rec_lock_count
      = c5Header.lockCount ∧
    ((inflate_lock_count_overflow 1 6 2 c5Header ⟨[]⟩ []).table.get 0).owner_id = 1 :=
  ⟨((claim_C5_lock_preservation 1 6 2 c5Header ⟨[]⟩ [] (by decide)).1 (by decide) (by decide)).1,
   ((claim_C5_lock_preservation 1 6 2 c5Header ⟨[]⟩ [] (by decide)).1 (by decide) (by decide)).2.1,
   ((claim_C5_lock_preservation 1 6 2 c5Header ⟨[]⟩ [] (by decide)).2 (by decide)).1⟩

/-- Claim C10: inflate_for_contention on a header thin-locked by the
calling thread leaves the object inflated but unlocked: the freshly
installed record is the unmarked-mutex default (owner 0, recursion count
0 — the thin lock is released as part of the inflation, with only the
mark epoch stamped), and the contended bit is cleared after the
successful install; on a header thin-locked by another thread it returns
false without changing the header or the table. -/
theorem claim_C10_contention_release (tid m : Nat) (h0 : HeaderWord) (t : InflatedTable)
    (sched : List HeaderWord) (hm : h0.meaning = .eAuxWordLock) :
    (h0.lockOwner = tid →
      (inflate_for_contention tid m h0 t []).ok = true ∧
      (inflate_for_contention tid m h0 t []).header
        = { meaning := .eAuxWordInflated, aux_word := t.records.length,
            LockContended := false } ∧
      (inflate_for_contention tid m h0 t []).table.get t.records.length
        = { InflatedHeader.fresh with mark := m } ∧
      ((inflate_for_contention tid m h0 t []).table.get t.records.length).owner_id = 0 ∧
      ((inflate_for_contention tid m h0 t []).table.get t.records.length).rec_lock_count
        = 0) ∧
    (h0.lockOwner ≠ tid →
      inflate_for_contention tid m h0 t sched
        = { ok := false, header := h0, table := t, writes := [], installed := false }) := by
  constructor
  · intro howner
    have hc : ifcCandidate tid h0 = some InflatedHeader.fresh := by
      simp [ifcCandidate, hm, howner]
    simp only [inflate_for_contention, inflateForContentionGo, hc]
    refine ⟨by trivial, by trivial, ?_, ?_, ?_⟩
    · exact InflatedTable.get_alloc_set t _
    · rw [InflatedTable.get_alloc_set t _]
      rfl
    · rw [InflatedTable.get_alloc_set t _]
      rfl
  · intro howner
    have hc : ifcCandidate tid h0 = none := by
      simp [ifcCandidate, hm, howner]
    cases sched <;> simp [inflate_for_contention, inflateForContentionGo, hc]

/-- Witness for claim C10 at a concrete thin-locked header (owner tid 1,
contended bit set), inflated by the owner and refused for tid 2. -/
theorem claim_C10_witness :
    (inflate_for_contention 1 2 ⟨.eAuxWordLock, 259, true⟩ ⟨[]⟩ []).ok = true ∧
    ((inflate_for_contention 1 2 ⟨.eAuxWordLock, 259, true⟩ ⟨[]⟩ []).header).LockContended
      = false ∧
    inflate_for_contention 2 2 ⟨.eAuxWordLock, 259, true⟩ ⟨[]⟩ []
      = { ok := false, header := ⟨.eAuxWordLock, 259, true⟩, table := ⟨[]⟩,
          writes := [], installed := false } :=
  ⟨((claim_C10_contention_release 1 2 ⟨.eAuxWordLock, 259, true⟩ ⟨[]⟩ [] rfl).1 (by decide)).1,
   by rw [((claim_C10_contention_release 1 2 ⟨.eAuxWordLock, 259, true⟩ ⟨[]⟩ [] rfl).1
       (by decide)).2.1],
   (claim_C10_contention_release 2 2 ⟨.eAuxWordLock, 259, true⟩ ⟨[]⟩ [] rfl).2 (by decide)⟩

theorem inflate_lock_count_overflow_writes (tid count m : Nat) (h : HeaderWord)
    (t : InflatedTable) (sched : List HeaderWord) (x : HeaderWord)
    (hx : x ∈ (inflate_lock_count_overflow tid count m h t sched).writes) :
    x.meaning = .eAuxWordInflated := by
  by_cases hh : h.meaning = .eAuxWordInflated
  · simp [inflate_lock_count_overflow, hh] at hx
  · simp only [inflate_lock_count_overflow, if_neg hh] at hx
    exact inflateLockCountOverflowLoop_writes _ _ _ _ _ _ _ x hx

theorem inflate_and_lock_writes (tid m : Nat) (h : HeaderWord) (t : InflatedTable)
    (sched : List HeaderWord) (x : HeaderWord)
    (hx : x ∈ (inflate_and_lock tid m h t sched).writes) :
    x.meaning = .eAuxWordInflated := by
  rcases hm : h.meaning with _ | _ | _ | _ | _
  · simp [inflate_and_lock, hm] at hx
  · simp only [inflate_and_lock, hm] at hx
    exact inflateAndLockLoop_writes _ _ _ _ _ x hx
  · by_cases howner : h.lockOwner ≠ tid
    · simp [inflate_and_lock, hm, howner] at hx
    · simp only [inflate_and_lock, hm, if_neg howner] at hx
      exact inflateAndLockLoop_writes _ _ _ _ _ x hx
  · simp only [inflate_and_lock, hm] at hx
    exact inflateAndLockLoop_writes _ _ _ _ _ x hx
  · simp [inflate_and_lock, hm] at hx

theorem inflate_for_contention_writes (tid m : Nat) (h : HeaderWord) (t : InflatedTable)
    (sched : List HeaderWord) (x : HeaderWord)
    (hx : x ∈ (inflate_for_contention tid m h t sched).writes) :
    x.meaning = .eAuxWordInflated := by
  simp only [inflate_for_contention] at hx
  exact inflateForContentionGo_writes _ _ _ _ _ x hx

theorem inflate_for_id_writes (id m : Nat) (h : HeaderWord) (t : InflatedTable)
    (sched : List HeaderWord) (x : HeaderWord)
    (hx : x ∈ (inflate_for_id id m h t sched).writes) :
    x.meaning = .eAuxWordInflated := by
  by_cases hh : h.meaning = .eAuxWordInflated
  · simp [inflate_for_id, hh] at hx
  · simp only [inflate_for_id, if_neg hh] at hx
    exact inflateForIdLoop_writes _ _ _ _ _ _ x hx

theorem inflate_for_handle_writes (hd m : Nat) (h : HeaderWord) (t : InflatedTable)
    (sched : List HeaderWord) (x : HeaderWord)
    (hx : x ∈ (inflate_for_handle hd m h t sched).writes) :
    x.meaning = .eAuxWordInflated := by
  by_cases hh : h.meaning = .eAuxWordInflated
  · simp [inflate_for_handle, hh] at hx
  · simp only [inflate_for_handle, if_neg hh] at hx
    exact inflateForHandleLoop_writes _ _ _ _ _ _ x hx

theorem InflatedTable.get_mid (t : InflatedTable) (j : Nat) (b : InflatedHeader)
    (hj : j < t.records.length) :
    (t.allocate.1.set t.allocate.2 b).get j = t.get j := by
  have hne1 : t.allocate.2 ≠ j := Nat.ne_of_gt hj
  rw [InflatedTable.get_set_ne _ _ _ _ hne1, InflatedTable.get_allocate t j hj]

theorem InflatedTable.get_raced_update (t : InflatedTable) (j : Nat) (b c d : InflatedHeader)
    (hj : j < t.records.length) :
    (((t.allocate.1.set t.allocate.2 b).set j c).set t.allocate.2 d).get j = c := by
  have hne1 : t.allocate.2 ≠ j := Nat.ne_of_gt hj
  rw [InflatedTable.get_set_ne _ _ _ _ hne1, InflatedTable.get_set_self]
  simp only [InflatedTable.set, InflatedTable.allocate, List.length_set, List.length_append,
    List.length_cons, List.length_nil]
  omega

theorem inflate_for_id_raced (id m : Nat) (h w : HeaderWord) (t : InflatedTable)
    (rest : List HeaderWord) (hne : h.meaning ≠ .eAuxWordInflated)
    (hinf : w.meaning = .eAuxWordInflated) :
    (inflate_for_id id m h t (w :: rest)).installed = false ∧
    (inflate_for_id id m h t (w :: rest)).writes = [] ∧
    (inflate_for_id id m h t (w :: rest)).header = w ∧
    (w.aux_word < t.records.length →
      (inflate_for_id id m h t (w :: rest)).table.get w.aux_word
        = (t.get w.aux_word).set_object_id id) := by
  have hwne : w ≠ h := fun he => hne (by rw [← he]; exact hinf)
  simp only [inflate_for_id, if_neg hne]
  simp only [inflateForIdLoop, if_neg hwne, if_pos hinf]
  refine ⟨by trivial, by trivial, by trivial, ?_⟩
  intro hwa
  rw [InflatedTable.get_raced_update t w.aux_word _ _ _ hwa,
    InflatedTable.get_mid t _ _ hwa]

theorem inflate_for_handle_raced (hd m : Nat) (h w : HeaderWord) (t : InflatedTable)
    (rest : List HeaderWord) (hne : h.meaning ≠ .eAuxWordInflated)
    (hinf : w.meaning = .eAuxWordInflated) :
    (inflate_for_handle hd m h t (w :: rest)).installed = false ∧
    (inflate_for_handle hd m h t (w :: rest)).writes = [] ∧
    (inflate_for_handle hd m h t (w :: rest)).header = w ∧
    (w.aux_word < t.records.length →
      (inflate_for_handle hd m h t (w :: rest)).table.get w.aux_word
        = (t.get w.aux_word).set_handle hd) := by
  have hwne : w ≠ h := fun he => hne (by rw [← he]; exact hinf)
  simp only [inflate_for_handle, if_neg hne]
  simp only [inflateForHandleLoop, if_neg hwne, if_pos hinf]
  refine ⟨by trivial, by trivial, by trivial, ?_⟩
  intro hwa
  rw [InflatedTable.get_raced_update t w.aux_word _ _ _ hwa,
    InflatedTable.get_mid t _ _ hwa]

theorem inflate_lock_count_overflow_raced (tid count m : Nat) (h w : HeaderWord)
    (t : InflatedTable) (rest : List HeaderWord) (hne : h.meaning ≠ .eAuxWordInflated)
    (hinf : w.meaning = .eAuxWordInflated) :
    (inflate_lock_count_overflow tid count m h t (w :: rest)).ok = false ∧
    (inflate_lock_count_overflow tid count m h t (w :: rest)).installed = false ∧
    (inflate_lock_count_overflow tid count m h t (w :: rest)).writes = [] := by
  have hwne : w ≠ h := fun he => hne (by rw [← he]; exact hinf)
  simp only [inflate_lock_count_overflow, if_neg hne]
  simp only [inflateLockCountOverflowLoop, if_neg hwne, if_pos hinf]
  exact ⟨by trivial, by trivial, by trivial⟩

theorem inflate_and_lock_raced (tid m : Nat) (h w : HeaderWord)
    (t : InflatedTable) (rest : List HeaderWord) (hne : h.meaning ≠ .eAuxWordInflated)
    (hinf : w.meaning = .eAuxWordInflated) :
    (inflate_and_lock tid m h t (w :: rest)).ok = false ∧
    (inflate_and_lock tid m h t (w :: rest)).installed = false ∧
    (inflate_and_lock tid m h t (w :: rest)).writes = [] := by
  have hwne : w ≠ h := fun he => hne (by rw [← he]; exact hinf)
  have hme : h.meaning ≠ w.meaning := fun he => hne (he.trans hinf)
  rcases hm : h.meaning with _ | _ | _ | _ | _
  · simp [inflate_and_lock, hm]
  · simp only [inflate_and_lock, hm]
    simp only [inflateAndLockLoop, if_neg hwne, if_pos hme]
    exact ⟨by trivial, by trivial, by trivial⟩
  · by_cases howner : h.lockOwner ≠ tid
    · simp [inflate_and_lock, hm, howner]
    · simp only [inflate_and_lock, hm, if_neg howner]
      simp only [inflateAndLockLoop, if_neg hwne, if_pos hme]
      exact ⟨by trivial, by trivial, by trivial⟩
  · simp only [inflate_and_lock, hm]
    simp only [inflateAndLockLoop, if_neg hwne, if_pos hme]
    exact ⟨by trivial, by trivial, by trivial⟩
  · exact absurd hm hne

theorem inflate_for_contention_raced (tid m : Nat) (h w : HeaderWord)
    (t : InflatedTable) (rest : List HeaderWord) (hne : h.meaning ≠ .eAuxWordInflated)
    (hinf : w.meaning = .eAuxWordInflated) :
    (inflate_for_contention tid m h t (w :: rest)).ok = false ∧
    (inflate_for_contention tid m h t (w :: rest)).installed = false ∧
    (inflate_for_contention tid m h t (w :: rest)).writes = [] := by
  have hwne : w ≠ h := fun he => hne (by rw [← he]; exact hinf)
  have hcw : ifcCandidate tid w = none := by
    simp [ifcCandidate, hinf]
  rcases hc : ifcCandidate tid h with _ | ih0
  · simp [inflate_for_contention, inflateForContentionGo, hc]
  · simp only [inflate_for_contention, inflateForContentionGo, hc, if_neg hwne]
    cases rest <;> simp [inflateForContentionGo, hcw]

/-- Claim C4: an Inflated header is terminal for the inflation paths.
Each of the five inflation operations, on observing an already inflated
header — at entry, or on the re-read after a failed CAS — either updates
the existing side record (inflate_for_id, inflate_for_handle) or
returns false, installing no new record and storing nothing into the
header; moreover every header value any of these operations ever stores
has meaning Inflated, so no operation ever replaces an Inflated meaning
with a lightweight one. -/
theorem claim_C4_inflated_terminal (tid count m id hd : Nat) (h w : HeaderWord)
    (t : InflatedTable) (sched rest : List HeaderWord) :
    (h.meaning = .eAuxWordInflated →
      inflate_lock_count_overflow tid count m h t sched
        = { ok := false, header := h, table := t, writes := [], installed := false } ∧
      inflate_and_lock tid m h t sched
        = { ok := false, header := h, table := t, writes := [], installed := false } ∧
      inflate_for_contention tid m h t sched
        = { ok := false, header := h, table := t, writes := [], installed := false } ∧
      inflate_for_id id m h t sched
        = { ok := true, header := h,
            table := t.set h.aux_word ((t.get h.aux_word).set_object_id id),
            writes := [], installed := false } ∧
      inflate_for_handle hd m h t sched
        = { ok := true, header := h,
            table := t.set h.aux_word ((t.get h.aux_word).set_handle hd),
            writes := [], installed := false }) ∧
    (h.meaning ≠ .eAuxWordInflated → w.meaning = .eAuxWordInflated →
      ((inflate_lock_count_overflow tid count m h t (w :: rest)).ok = false ∧
        (inflate_lock_count_overflow tid count m h t (w :: rest)).installed = false ∧
        (inflate_lock_count_overflow tid count m h t (w :: rest)).writes = []) ∧
      ((inflate_and_lock tid m h t (w :: rest)).ok = false ∧
        (inflate_and_lock tid m h t (w :: rest)).installed = false ∧
        (inflate_and_lock tid m h t (w :: rest)).writes = []) ∧
      ((inflate_for_contention tid m h t (w :: rest)).ok = false ∧
        (inflate_for_contention tid m h t (w :: rest)).installed = false ∧
        (inflate_for_contention tid m h t (w :: rest)).writes = []) ∧
      ((inflate_for_id id m h t (w :: rest)).installed = false ∧
        (inflate_for_id id m h t (w :: rest)).writes = [] ∧
        (inflate_for_id id m h t (w :: rest)).header = w ∧
        (w.aux_word < t.records.length →
          (inflate_for_id id m h t (w :: rest)).table.get w.aux_word
            = (t.get w.aux_word).set_object_id id)) ∧
      ((inflate_for_handle hd m h t (w :: rest)).installed = false ∧
        (inflate_for_handle hd m h t (w :: rest)).writes = [] ∧
        (inflate_for_handle hd m h t (w :: rest)).header = w ∧
        (w.aux_word < t.records.length →
          (inflate_for_handle hd m h t (w :: rest)).table.get w.aux_word
            = (t.get w.aux_word).set_handle hd))) ∧
    (∀ x, x ∈ (inflate_lock_count_overflow tid count m h t sched).writes →
      x.meaning = .eAuxWordInflated) ∧
    (∀ x, x ∈ (inflate_and_lock tid m h t sched).writes → x.meaning = .eAuxWordInflated) ∧
    (∀ x, x ∈ (inflate_for_contention tid m h t sched).writes →
      x.meaning = .eAuxWordInflated) ∧
    (∀ x, x ∈ (inflate_for_id id m h t sched).writes → x.meaning = .eAuxWordInflated) ∧
    (∀ x, x ∈ (inflate_for_handle hd m h t sched).writes → x.meaning = .eAuxWordInflated) := by
  refine ⟨?_, ?_, ?_, ?_, ?_, ?_, ?_⟩
  · intro hh
    refine ⟨?_, ?_, ?_, ?_, ?_⟩
    · simp [inflate_lock_count_overflow, hh]
    · simp [inflate_and_lock, hh]
    · cases sched <;>
        simp [inflate_for_contention, inflateForContentionGo, ifcCandidate, hh]
    · simp [inflate_for_id, hh]
    · simp [inflate_for_handle, hh]
  · intro hne hinf
    exact ⟨inflate_lock_count_overflow_raced tid count m h w t rest hne hinf,
      inflate_and_lock_raced tid m h w t rest hne hinf,
      inflate_for_contention_raced tid m h w t rest hne hinf,
      inflate_for_id_raced id m h w t rest hne hinf,
      inflate_for_handle_raced hd m h w t rest hne hinf⟩
  · exact fun x => inflate_lock_count_overflow_writes tid count m h t sched x
  · exact fun x => inflate_and_lock_writes tid m h t sched x
  · exact fun x => inflate_for_contention_writes tid m h t sched x
  · exact fun x => inflate_for_id_writes id m h t sched x
  · exact fun x => inflate_for_handle_writes hd m h t sched x

/-- Witness for claim C4 at concrete inputs: an inflated entry header
and a raced CAS whose re-read observes an inflated header. -/
theorem claim_C4_witness :
    inflate_and_lock 1 2 ⟨.eAuxWordInflated, 0, false⟩ ⟨[InflatedHeader.fresh]⟩ []
      = { ok := false, header := ⟨.eAuxWordInflated, 0, false⟩,
          table := ⟨[InflatedHeader.fresh]⟩, writes := [], installed := false } ∧
    (inflate_for_id 7 2 ⟨.eAuxWordEmpty, 0, false⟩ ⟨[InflatedHeader.fresh]⟩
        [⟨.eAuxWordInflated, 0, false⟩]).table.get 0
      = (InflatedTable.get ⟨[InflatedHeader.fresh]⟩ 0).set_object_id 7 :=
  ⟨((claim_C4_inflated_terminal 1 0 2 7 0 ⟨.eAuxWordInflated, 0, false⟩
      ⟨.eAuxWordEmpty, 0, false⟩ ⟨[InflatedHeader.fresh]⟩ [] []).1 rfl).2.1,
   (((claim_C4_inflated_terminal 1 0 2 7 0 ⟨.eAuxWordEmpty, 0, false⟩
      ⟨.eAuxWordInflated, 0, false⟩ ⟨[InflatedHeader.fresh]⟩ []
      []).2.1 (by decide) rfl).2.2.2.1).2.2.2 (by decide)⟩

end rubinius
